import Mathlib

/-!
Verification of the LunaJoy matching engine against its design documents.

The matching/scoring algorithms are specified in the repository's design
document (`Matching Logic & Algorithms`) as Python pseudocode; the frontend
search form and constants are React/JS sources.  This file embeds those
functions over exact rationals (`ℚ`) and lists, and proves the documented
invariants: score bounds, filter monotonicity, determinism of the insurance
simulation, interaction-matrix folding, collaborative-filtering neutrality,
specialty-score fallback, weight normalization, diversity re-ranking, and
the frontend's submit-time cleaning of clinical needs.
-/

namespace LunaJoy

/-! ## Data model (design doc `Clinician Data Structure`, hard-filter fields) -/

/-- A clinician record restricted to the fields the hard filters inspect. -/
structure Clinician where
  clinician_id : String
  license_states : List String
  appointment_types : List String
  accepting_new_patients : Bool
deriving DecidableEq, Repr

/-- The stated preferences the filter stage inspects; `none` means the
preference was not given, mirroring the pseudocode's `if filters.state` guard. -/
structure Filters where
  state : Option String
  appointment_type : Option String
deriving DecidableEq, Repr

/-! ## Hard filters (design doc, Filtering Logic) -/

/-- Source `filter_by_state`: keep clinicians licensed in the user's state. -/
def filter_by_state (clinicians : List Clinician) (user_state : String) : List Clinician :=
  clinicians.filter (fun c => decide (user_state ∈ c.license_states))

/-- Source `filter_by_appointment_type`: keep clinicians offering the requested type. -/
def filter_by_appointment_type (clinicians : List Clinician) (t : String) : List Clinician :=
  clinicians.filter (fun c => decide (t ∈ c.appointment_types))

/-- Source `filter_accepting_patients`: keep clinicians accepting new patients. -/
def filter_accepting_patients (clinicians : List Clinician) : List Clinician :=
  clinicians.filter (fun c => c.accepting_new_patients)

/-- Modelled from the spec: the design doc's `apply_filters_optimized`
(Performance Optimizations, Early Termination) shows only the state-license
stage followed by the `MIN_RESULTS` early return; §4.1 of the specification
states that each hard filter receives the previous stage's output, in the
fixed order state → appointment type → accepting patients, and that the stage
may short-circuit and return the current set after any filter once it falls
below `MIN_RESULTS`.  The elided appointment-type and accepting-patients
stages are completed here in that order with the same early-return policy. -/
def apply_filters_optimized (MIN_RESULTS : Nat) (clinicians : List Clinician)
    (filters : Filters) : List Clinician :=
  let cs1 := match filters.state with
    | some s => filter_by_state clinicians s
    | none => clinicians
  if cs1.length < MIN_RESULTS then cs1
  else
    let cs2 := match filters.appointment_type with
      | some t => filter_by_appointment_type cs1 t
      | none => cs1
    if cs2.length < MIN_RESULTS then cs2
    else filter_accepting_patients cs2

/-- A clinician passes every hard filter that the preference set activates. -/
def passes_hard_filters (filters : Filters) (c : Clinician) : Prop :=
  (∀ s, filters.state = some s → s ∈ c.license_states)
  ∧ (∀ t, filters.appointment_type = some t → t ∈ c.appointment_types)
  ∧ c.accepting_new_patients = true

/-! ## Insurance scoring (design doc, Insurance Compatibility and
Deterministic Randomness) -/

/-- The acceptance probability chosen by `simulate_insurance_acceptance`:
`base_probability = 70`, raised to `85` when
`insurance in ["Aetna", "Blue Cross"]`. -/
def base_probability (insurance : String) : Nat :=
  if insurance = "Aetna" ∨ insurance = "Blue Cross" then 85 else 70

/-- Source `simulate_insurance_acceptance`, parametrized by the stable string hash
`h` (the design doc fixes `h` to an MD5-prefix digest; every theorem below
holds for an arbitrary hash, so nothing depends on the digest values).
Accepted iff `h(clinician_id ++ insurance) mod 100 < base_probability`. -/
def simulate_insurance_acceptance (h : String → Nat)
    (clinician_id insurance : String) : Bool :=
  decide (h (clinician_id ++ insurance) % 100 < base_probability insurance)

/-- Source `score_insurance`: `0.5` when the user states no provider, else `1.0`
if the simulated acceptance succeeds and `0.0` otherwise. -/
def score_insurance (h : String → Nat) (clinician_id : String)
    (insurance_provider : Option String) : ℚ :=
  match insurance_provider with
  | none => 1/2
  | some provider =>
      if simulate_insurance_acceptance h clinician_id provider then 1 else 0

/-! ## Specialty scoring (design doc, Basic Matching) -/

/-- Source `score_specialties_basic`: `0.5` when the user stated no clinical needs,
else `|needs ∩ specialties| / |needs|` over the deduplicated sets. -/
def score_specialties_basic (clinical_needs specialties : List String) : ℚ :=
  let user_needs := clinical_needs.toFinset
  let clinician_specs := specialties.toFinset
  if user_needs = ∅ then 1/2
  else ((user_needs ∩ clinician_specs).card : ℚ) / (user_needs.card : ℚ)

/-! ## Weight profiles (design doc, Weight Configurations) -/

/-- The five factor weights of a scoring profile. -/
structure Weights where
  availability : ℚ
  insurance : ℚ
  specialties : ℚ
  load_balance : ℚ
  preferences : ℚ
deriving DecidableEq, Repr

/-- Source `WEIGHTS_URGENT` from the design doc. -/
def WEIGHTS_URGENT : Weights :=
  { availability := 0.40, insurance := 0.20, specialties := 0.20
    load_balance := 0.10, preferences := 0.10 }

/-- Source `WEIGHTS_FLEXIBLE` from the design doc. -/
def WEIGHTS_FLEXIBLE : Weights :=
  { availability := 0.25, insurance := 0.25, specialties := 0.25
    load_balance := 0.15, preferences := 0.10 }

/-- Sum of the five weights of a profile. -/
def Weights.total (w : Weights) : ℚ :=
  w.availability + w.insurance + w.specialties + w.load_balance + w.preferences

/-- The weighted sum of the five factor scores under a profile. -/
def weighted_sum (w : Weights) (availability insurance specialties
    load_balance preferences : ℚ) : ℚ :=
  w.availability * availability + w.insurance * insurance
    + w.specialties * specialties + w.load_balance * load_balance
    + w.preferences * preferences

/-! ## Score adjustment chain (design doc, Adjustment Factors; spec §4.2–§4.5) -/

/-- Clamp a rational to the unit interval. -/
def clamp01 (x : ℚ) : ℚ := max 0 (min 1 x)

/-- Modelled from the spec: the backend orchestrator that composes the
adjustments and applies the final clamp is not among the repository sources;
only the individual adjustment bodies appear in the design doc (new-clinician
boost `score *= 1.1`, overload penalty `score *= 0.7`, cluster-favorite boost
`match.score *= 1.15`, hybrid blend `0.6 × content + 0.4 × cf`, diversity
factor `match.score *= diversity_score`).  Spec §4.2–§4.5 fixes the
composition order — boosts and penalty after the weighted sum, the
collaborative-filtering blend, the diversity factor, then a clamp to
`[0, 1]` — which is followed here. -/
def apply_adjustment_chain (is_new_clinician overloaded cluster_favorite
    complete_tier : Bool) (cf_prediction diversity_factor : ℚ) (base : ℚ) : ℚ :=
  let s1 := if is_new_clinician then base * 1.1 else base
  let s2 := if overloaded then s1 * 0.7 else s1
  let s3 := if cluster_favorite then s2 * 1.15 else s2
  let s4 := if complete_tier then 0.6 * s3 + 0.4 * cf_prediction else s3
  let s5 := s4 * diversity_factor
  clamp01 s5

/-- The final match score: the weighted five-factor sum fed through the
adjustment chain. -/
def match_score (w : Weights) (availability insurance specialties
    load_balance preferences : ℚ) (is_new_clinician overloaded
    cluster_favorite complete_tier : Bool)
    (cf_prediction diversity_factor : ℚ) : ℚ :=
  apply_adjustment_chain is_new_clinician overloaded cluster_favorite
    complete_tier cf_prediction diversity_factor
    (weighted_sum w availability insurance specialties load_balance preferences)

/-! ## Interaction matrix (design doc, Interaction Score Mapping and
Collaborative Filtering) -/

/-- The interaction actions of the `ACTION_SCORES` table. -/
inductive Action where
  | booked
  | contacted
  | clicked
  | viewed
  | ignored
  | rejected
deriving DecidableEq, Repr

/-- Source `ACTION_SCORES` from the design doc. -/
def ACTION_SCORES : Action → ℚ
  | .booked => 1.0
  | .contacted => 0.7
  | .clicked => 0.4
  | .viewed => 0.2
  | .ignored => 0.0
  | .rejected => -0.5

/-- One historical interaction of a user with a clinician. -/
structure Interaction where
  user_id : String
  clinician_id : String
  action : Action
deriving DecidableEq, Repr

/-- Source `interaction_to_score` maps an interaction through `ACTION_SCORES`. -/
def interaction_to_score (i : Interaction) : ℚ := ACTION_SCORES i.action

/-- One folding step of `build_user_item_matrix`: store the interaction's
score at `(user_id, clinician_id)`, taking the maximum with any score already
stored for that pair. -/
def update_matrix (m : String → String → Option ℚ) (i : Interaction) :
    String → String → Option ℚ :=
  fun u c =>
    if u = i.user_id ∧ c = i.clinician_id then
      match m u c with
      | none => some (interaction_to_score i)
      | some s => some (max s (interaction_to_score i))
    else m u c

/-- Source `build_user_item_matrix`: fold all interactions into the sparse
user–clinician matrix with `max` aggregation per pair. -/
def build_user_item_matrix (all_interactions : List Interaction) :
    String → String → Option ℚ :=
  all_interactions.foldl update_matrix (fun _ _ => none)

/-- Maximum of the two optional scores, `none` acting as the absent entry. -/
def optionMax : Option ℚ → Option ℚ → Option ℚ
  | none, b => b
  | some a, none => some a
  | some a, some b => some (max a b)

/-- The maximum of a list of scores, `none` on the empty list. -/
def maxEntry : List ℚ → Option ℚ
  | [] => none
  | x :: xs => optionMax (some x) (maxEntry xs)

/-! ## Collaborative-filtering prediction (design doc, `predict_scores`) -/

/-- Arithmetic mean of a list of scores. -/
def mean (scores : List ℚ) : ℚ := scores.sum / (scores.length : ℚ)

/-- The per-candidate body of `predict_scores`: collect the matrix entries of
the similar users that have one for this clinician; predict their mean, or
the neutral `0.5` when no similar user has an entry. -/
def predict_score (user_item_matrix : String → String → Option ℚ)
    (similar_users : List String) (clinician_id : String) : ℚ :=
  let scores := similar_users.filterMap (fun su => user_item_matrix su clinician_id)
  if scores = [] then 1/2 else mean scores

/-- Source `predict_scores`: the prediction map over all candidate clinicians. -/
def predict_scores (user_item_matrix : String → String → Option ℚ)
    (similar_users : List String) (candidates : List String) :
    List (String × ℚ) :=
  candidates.map (fun cid => (cid, predict_score user_item_matrix similar_users cid))

/-! ## Diversity re-ranking (design doc, Diversity Boost; spec §4.5) -/

/-- A finalized match entry as the diversity re-rank sees it: an identity,
a finalized score, and the distinguishing attributes the seen-set records. -/
structure MatchResult where
  clinician_id : String
  score : ℚ
  gender : String
  primary_specialty : String
deriving DecidableEq, Repr

/-- Modelled from the spec: the design doc leaves `update_seen` abstract;
§4.5 says the match's distinguishing attributes (gender, primary specialty)
are recorded into the seen set, modelled as set-inserts into an attribute
list. -/
def update_seen (m : MatchResult) (seen : List String) : List String :=
  (seen.insert m.gender).insert m.primary_specialty

/-- The indexed pass of `apply_diversity`: the first three matches only feed
the seen set; each later match has its score multiplied by
`calc_dv match seen` (the design doc's `calculate_diversity`, left abstract
there and in spec §9, hence a parameter here) before feeding the seen set. -/
def diversity_pass (calc_dv : MatchResult → List String → ℚ)
    (seen : List String) (i : Nat) : List MatchResult → List MatchResult
  | [] => []
  | m :: rest =>
      if i < 3 then m :: diversity_pass calc_dv (update_seen m seen) (i + 1) rest
      else
        let adjusted := { m with score := m.score * calc_dv m seen }
        adjusted :: diversity_pass calc_dv (update_seen adjusted seen) (i + 1) rest

/-- Stable descending insertion: an element is placed before the first
element of strictly smaller or equal score, so earlier elements win ties. -/
def insert_desc (m : MatchResult) : List MatchResult → List MatchResult
  | [] => [m]
  | b :: l => if b.score ≤ m.score then m :: b :: l else b :: insert_desc m l

/-- Source `sort_by_score`: stable sort by descending score. -/
def sort_by_score : List MatchResult → List MatchResult
  | [] => []
  | m :: l => insert_desc m (sort_by_score l)

/-- Source `apply_diversity` from the design doc: penalize the tail, then re-sort. -/
def apply_diversity (calc_dv : MatchResult → List String → ℚ)
    (ms : List MatchResult) : List MatchResult :=
  sort_by_score (diversity_pass calc_dv [] 0 ms)

/-- Scores are weakly decreasing along the list. -/
def SortedDesc (l : List MatchResult) : Prop :=
  l.Pairwise (fun a b => b.score ≤ a.score)

/-! ## Frontend (React sources `SearchForm.jsx` and `utils/constants.js`) -/

/-- The wizard's form state, as initialized and submitted by `SearchForm`. -/
structure FormData where
  state : String
  appointment_type : String
  insurance_provider : String
  language : String
  gender_preference : String
  clinical_needs : List String
  preferred_time_slots : List String
  urgency_level : String
deriving DecidableEq, Repr

/-- Source `cleanedData` from `SearchForm.handleSubmit`: clears the clinical needs
when the appointment type is `medication`, and blanks the default language. -/
def cleanedData (formData : FormData) : FormData :=
  { formData with
      clinical_needs :=
        if formData.appointment_type = "medication" then []
        else formData.clinical_needs
      language :=
        if formData.language = "English" then "" else formData.language }

/-- Source `INSURANCE_PROVIDERS` from `utils/constants.js`. -/
def INSURANCE_PROVIDERS : List String :=
  ["BlueCross BlueShield", "UnitedHealth", "Aetna", "Cigna", "Kaiser",
   "Humana", "Anthem", "Centene", "Molina", "WellCare", "Private Pay"]

/-! ## Theorems -/

/-- The clamp lands in the unit interval for every input. -/
theorem clamp01_mem (x : ℚ) : 0 ≤ clamp01 x ∧ clamp01 x ≤ 1 := by
  constructor
  · exact le_max_left 0 (min 1 x)
  · exact max_le (by norm_num) (min_le_left 1 x)

/-- Claim C1: for every weight profile, factor scores, adjustment flags,
collaborative-filtering prediction and diversity factor, the match score
produced by the full adjustment chain over the weighted sum lies in
`[0, 1]`; the final clamp guarantees the bound for all inputs. -/
theorem match_score_in_unit_interval (w : Weights) (availability insurance
    specialties load_balance preferences : ℚ) (is_new_clinician overloaded
    cluster_favorite complete_tier : Bool)
    (cf_prediction diversity_factor : ℚ) :
    0 ≤ match_score w availability insurance specialties load_balance
        preferences is_new_clinician overloaded cluster_favorite
        complete_tier cf_prediction diversity_factor
    ∧ match_score w availability insurance specialties load_balance
        preferences is_new_clinician overloaded cluster_favorite
        complete_tier cf_prediction diversity_factor ≤ 1 := by
  unfold match_score apply_adjustment_chain
  exact clamp01_mem _

/-- Claim C8: both weight profiles sum to exactly `1.0`, hence within the
`1e-9` tolerance. -/
theorem weight_profiles_sum_to_one :
    WEIGHTS_URGENT.total = 1 ∧ WEIGHTS_FLEXIBLE.total = 1
    ∧ |WEIGHTS_URGENT.total - 1| ≤ 1 / 1000000000
    ∧ |WEIGHTS_FLEXIBLE.total - 1| ≤ 1 / 1000000000 := by
  refine ⟨?_, ?_, ?_, ?_⟩ <;>
    norm_num [Weights.total, WEIGHTS_URGENT, WEIGHTS_FLEXIBLE]

/-- Claim C4: the insurance score is `1.0` exactly when
`h(clinician_id ++ provider) mod 100` falls below the probability `85` for
Aetna / Blue Cross and `70` otherwise, and `0.0` when it does not; with no
stated provider the score is `0.5`; and, the simulation being a pure
function of `(clinician_id, provider)`, calling it twice yields the same
accept/reject decision. -/
theorem score_insurance_threshold_spec (h : String → Nat)
    (clinician_id provider : String) :
    score_insurance h clinician_id (some provider)
      = (if h (clinician_id ++ provider) % 100
            < (if provider = "Aetna" ∨ provider = "Blue Cross" then 85 else 70)
         then 1 else 0)
    ∧ score_insurance h clinician_id none = 1/2
    ∧ simulate_insurance_acceptance h clinician_id provider
        = simulate_insurance_acceptance h clinician_id provider := by
  refine ⟨?_, rfl, rfl⟩
  simp only [score_insurance, simulate_insurance_acceptance, base_probability]
  by_cases hp : h (clinician_id ++ provider) % 100
      < if provider = "Aetna" ∨ provider = "Blue Cross" then 85 else 70 <;>
    simp [hp]

/-- Claim C7: the basic specialty score is exactly `0.5` when the user's
clinical-needs set is empty, and otherwise equals
`|needs ∩ specialties| / |needs|` with a provably nonzero denominator, so the
division branch is never evaluated at denominator zero. -/
theorem score_specialties_basic_safe (clinical_needs specialties : List String) :
    (clinical_needs.toFinset = ∅ →
      score_specialties_basic clinical_needs specialties = 1/2)
    ∧ (clinical_needs.toFinset ≠ ∅ →
        score_specialties_basic clinical_needs specialties
          = ((clinical_needs.toFinset ∩ specialties.toFinset).card : ℚ)
              / (clinical_needs.toFinset.card : ℚ)
        ∧ ((clinical_needs.toFinset.card : ℚ) ≠ 0)) := by
  constructor
  · intro hempty
    simp [score_specialties_basic, hempty]
  · intro hne
    refine ⟨by simp [score_specialties_basic, hne], ?_⟩
    have hcard : clinical_needs.toFinset.card ≠ 0 :=
      Finset.card_ne_zero_of_mem (Finset.nonempty_iff_ne_empty.mpr hne).choose_spec
    exact_mod_cast hcard

/-- Witness for C7 at concrete inputs: an empty-needs user scores `0.5`, and
a one-need user with a matching clinician scores `1/1` with denominator `1`. -/
theorem score_specialties_basic_safe_witness :
    (([] : List String).toFinset = ∅
      ∧ score_specialties_basic [] ["Anxiety"] = 1/2)
    ∧ (["Anxiety"].toFinset ≠ (∅ : Finset String)
      ∧ score_specialties_basic ["Anxiety"] ["Anxiety", "PTSD"]
          = ((["Anxiety"].toFinset ∩ ["Anxiety", "PTSD"].toFinset).card : ℚ)
              / ((["Anxiety"] : List String).toFinset.card : ℚ)
      ∧ (((["Anxiety"] : List String).toFinset.card : ℚ) ≠ 0)) :=
  ⟨⟨by decide, (score_specialties_basic_safe [] ["Anxiety"]).1 (by decide)⟩,
   ⟨by decide, (score_specialties_basic_safe ["Anxiety"] ["Anxiety", "PTSD"]).2
      (by decide)⟩⟩

/-- Claim C10: for every provider in the frontend's selectable list the
simulated base probability is `70` unless the string is exactly `"Aetna"`;
the list spells Blue Cross as `"BlueCross BlueShield"`, which differs from
`"Blue Cross"`, and `"Blue Cross"` itself is not in the list, so the `85`
branch for `"Blue Cross"` is unreachable from the UI list. -/
theorem frontend_provider_probabilities :
    (∀ p ∈ INSURANCE_PROVIDERS,
        base_probability p = if p = "Aetna" then 85 else 70)
    ∧ "Blue Cross" ∉ INSURANCE_PROVIDERS
    ∧ "BlueCross BlueShield" ∈ INSURANCE_PROVIDERS
    ∧ ("BlueCross BlueShield" : String) ≠ "Blue Cross" := by
  refine ⟨?_, by decide, by decide, by decide⟩
  decide

/-- Witness for C10 at the list's Blue Cross spelling. -/
theorem frontend_provider_probabilities_witness :
    "BlueCross BlueShield" ∈ INSURANCE_PROVIDERS
    ∧ base_probability "BlueCross BlueShield"
        = if ("BlueCross BlueShield" : String) = "Aetna" then 85 else 70 :=
  ⟨by decide,
   frontend_provider_probabilities.1 "BlueCross BlueShield" (by decide)⟩

/-- Claim C9: a wizard submission with appointment type `medication` reaches
the engine with `clinical_needs = []`, so the specialty score takes the
empty-needs `0.5` fallback against every specialty list. -/
theorem medication_submit_clears_clinical_needs (formData : FormData)
    (specialties : List String)
    (hmed : formData.appointment_type = "medication") :
    (cleanedData formData).clinical_needs = []
    ∧ score_specialties_basic (cleanedData formData).clinical_needs
        specialties = 1/2 := by
  have hclear : (cleanedData formData).clinical_needs = [] := by
    simp [cleanedData, hmed]
  exact ⟨hclear, by rw [hclear]; simp [score_specialties_basic]⟩

/-- Witness for C9 on a concrete medication-type form submission. -/
theorem medication_submit_clears_clinical_needs_witness :
    (FormData.mk "CA" "medication" "Aetna" "English" "" ["Anxiety"] []
        "flexible").appointment_type = "medication"
    ∧ (cleanedData (FormData.mk "CA" "medication" "Aetna" "English" ""
        ["Anxiety"] [] "flexible")).clinical_needs = []
    ∧ score_specialties_basic
        (cleanedData (FormData.mk "CA" "medication" "Aetna" "English" ""
          ["Anxiety"] [] "flexible")).clinical_needs ["Anxiety"] = 1/2 := by
  refine ⟨rfl, ?_⟩
  have h := medication_submit_clears_clinical_needs
    (FormData.mk "CA" "medication" "Aetna" "English" "" ["Anxiety"] []
      "flexible") ["Anxiety"] rfl
  exact h

/-- The absent entry is a right identity of `optionMax`. -/
theorem optionMax_none_right (a : Option ℚ) : optionMax a none = a := by
  cases a <;> rfl

/-- Source `optionMax` is associative. -/
theorem optionMax_assoc (a b c : Option ℚ) :
    optionMax (optionMax a b) c = optionMax a (optionMax b c) := by
  cases a <;> cases b <;> cases c <;> simp [optionMax, max_assoc]

/-- Folding any prefix of interactions over any starting matrix stores, at
each `(user, clinician)` pair, the `optionMax` of the starting entry with the
maximum score among the pair's interactions. -/
theorem foldl_update_matrix (l : List Interaction)
    (m : String → String → Option ℚ) (u c : String) :
    (l.foldl update_matrix m) u c
      = optionMax (m u c)
          (maxEntry ((l.filter
              (fun i => decide (u = i.user_id ∧ c = i.clinician_id))).map
            interaction_to_score)) := by
  induction l generalizing m with
  | nil => simp [maxEntry, optionMax_none_right]
  | cons i l ih =>
    simp only [List.foldl_cons, List.filter_cons]
    by_cases hm : u = i.user_id ∧ c = i.clinician_id
    · have hstep : update_matrix m i u c
          = optionMax (m u c) (some (interaction_to_score i)) := by
        simp only [update_matrix, if_pos hm]
        cases m u c <;> rfl
      rw [ih, hstep, optionMax_assoc]
      simp [hm, maxEntry]
    · have hstep : update_matrix m i u c = m u c := by
        simp only [update_matrix, if_neg hm]
      rw [ih, hstep]
      simp [hm]

/-- Claim C5: `ACTION_SCORES` maps booked→1.0, contacted→0.7, clicked→0.4,
viewed→0.2, ignored→0.0, rejected→−0.5; the interaction matrix stores, per
`(user, clinician)` pair, the maximum of the scores of that pair's
interactions; and the example fold `[viewed, booked, ignored]` yields `1.0`. -/
theorem interaction_matrix_max_fold_spec :
    (ACTION_SCORES .booked = 1 ∧ ACTION_SCORES .contacted = 7/10
      ∧ ACTION_SCORES .clicked = 2/5 ∧ ACTION_SCORES .viewed = 1/5
      ∧ ACTION_SCORES .ignored = 0 ∧ ACTION_SCORES .rejected = -(1/2))
    ∧ (∀ (l : List Interaction) (u c : String),
        build_user_item_matrix l u c
          = maxEntry ((l.filter
              (fun i => decide (u = i.user_id ∧ c = i.clinician_id))).map
            interaction_to_score))
    ∧ build_user_item_matrix
        [Interaction.mk "u1" "c1" .viewed, Interaction.mk "u1" "c1" .booked,
         Interaction.mk "u1" "c1" .ignored] "u1" "c1" = some 1 := by
  refine ⟨by norm_num [ACTION_SCORES], ?_, ?_⟩
  · intro l u c
    have h := foldl_update_matrix l (fun _ _ => none) u c
    simpa [build_user_item_matrix, optionMax] using h
  · rw [build_user_item_matrix, foldl_update_matrix]
    norm_num [maxEntry, optionMax, interaction_to_score, ACTION_SCORES,
      max_def]

/-- Claim C6: the collaborative-filtering prediction for a candidate is the
mean of the matrix entries for that clinician among similar users having an
entry, is exactly `0.5` when no similar user has an entry, and with an empty
similar-user set every candidate receives `0.5`. -/
theorem predict_scores_mean_or_neutral
    (user_item_matrix : String → String → Option ℚ)
    (similar_users : List String) (candidates : List String)
    (clinician_id : String) :
    ((similar_users.filterMap
        (fun su => user_item_matrix su clinician_id)) ≠ [] →
      predict_score user_item_matrix similar_users clinician_id
        = mean (similar_users.filterMap
            (fun su => user_item_matrix su clinician_id)))
    ∧ ((similar_users.filterMap
        (fun su => user_item_matrix su clinician_id)) = [] →
      predict_score user_item_matrix similar_users clinician_id = 1/2)
    ∧ predict_scores user_item_matrix [] candidates
        = candidates.map (fun cid => (cid, 1/2)) := by
  refine ⟨?_, ?_, ?_⟩
  · intro hne
    simp [predict_score, hne]
  · intro he
    simp [predict_score, he]
  · simp [predict_scores, predict_score]

/-- Witness for C6: against the matrix built from a single booking by `u2`,
the similar user `u2` yields the mean prediction and the stranger `u9` the
neutral `0.5`. -/
theorem predict_scores_mean_or_neutral_witness :
    ((["u2"].filterMap (fun su =>
        build_user_item_matrix [Interaction.mk "u2" "c1" .booked] su "c1"))
        ≠ []
      ∧ predict_score
          (build_user_item_matrix [Interaction.mk "u2" "c1" .booked])
          ["u2"] "c1"
        = mean (["u2"].filterMap (fun su =>
            build_user_item_matrix [Interaction.mk "u2" "c1" .booked] su
              "c1")))
    ∧ ((["u9"].filterMap (fun su =>
        build_user_item_matrix [Interaction.mk "u2" "c1" .booked] su "c1"))
        = []
      ∧ predict_score
          (build_user_item_matrix [Interaction.mk "u2" "c1" .booked])
          ["u9"] "c1" = 1/2) :=
  ⟨⟨by decide,
    (predict_scores_mean_or_neutral
      (build_user_item_matrix [Interaction.mk "u2" "c1" .booked])
      ["u2"] [] "c1").1 (by decide)⟩,
   ⟨by decide,
    (predict_scores_mean_or_neutral
      (build_user_item_matrix [Interaction.mk "u2" "c1" .booked])
      ["u9"] [] "c1").2.1 (by decide)⟩⟩

/-- Membership in the state filter output. -/
theorem mem_filter_by_state {c : Clinician} {cs : List Clinician} {s : String} :
    c ∈ filter_by_state cs s ↔ c ∈ cs ∧ s ∈ c.license_states := by
  simp [filter_by_state]

/-- Membership in the appointment-type filter output. -/
theorem mem_filter_by_appointment_type {c : Clinician} {cs : List Clinician}
    {t : String} :
    c ∈ filter_by_appointment_type cs t ↔ c ∈ cs ∧ t ∈ c.appointment_types := by
  simp [filter_by_appointment_type]

/-- Membership in the accepting-patients filter output. -/
theorem mem_filter_accepting_patients {c : Clinician} {cs : List Clinician} :
    c ∈ filter_accepting_patients cs ↔ c ∈ cs ∧ c.accepting_new_patients = true := by
  simp [filter_accepting_patients]

/-- The amended filter-stage contract: the output is always a subset of the
input; every output clinician passes the state filter whenever a state
preference is given (the first stage always runs before any short-circuit);
and when the `MIN_RESULTS` short-circuit cannot fire (threshold `0`) every
output clinician passes all three hard filters. -/
theorem apply_filters_subset_and_hard_filters (MIN_RESULTS : Nat)
    (clinicians : List Clinician) (filters : Filters) :
    (∀ c ∈ apply_filters_optimized MIN_RESULTS clinicians filters,
        c ∈ clinicians)
    ∧ (∀ s, filters.state = some s →
        ∀ c ∈ apply_filters_optimized MIN_RESULTS clinicians filters,
          s ∈ c.license_states)
    ∧ (∀ c ∈ apply_filters_optimized 0 clinicians filters,
        passes_hard_filters filters c) := by
  obtain ⟨os, ot⟩ := filters
  rcases os with _ | s <;> rcases ot with _ | t
  · refine ⟨?_, ?_, ?_⟩
    · intro c hc
      simp only [apply_filters_optimized] at hc
      split at hc
      · exact hc
      · exact (mem_filter_accepting_patients.mp hc).1
    · intro s hs
      exact absurd hs (by simp)
    · intro c hc
      simp only [apply_filters_optimized, Nat.not_lt_zero, if_false] at hc
      exact ⟨fun s hs => by simp at hs, fun t ht => by simp at ht,
        (mem_filter_accepting_patients.mp hc).2⟩
  · refine ⟨?_, ?_, ?_⟩
    · intro c hc
      simp only [apply_filters_optimized] at hc
      split at hc
      · exact hc
      · split at hc
        · exact (mem_filter_by_appointment_type.mp hc).1
        · exact (mem_filter_by_appointment_type.mp
            (mem_filter_accepting_patients.mp hc).1).1
    · intro s hs
      exact absurd hs (by simp)
    · intro c hc
      simp only [apply_filters_optimized, Nat.not_lt_zero, if_false] at hc
      obtain ⟨h1, hacc⟩ := mem_filter_accepting_patients.mp hc
      obtain ⟨_, happt⟩ := mem_filter_by_appointment_type.mp h1
      refine ⟨fun s hs => by simp at hs, fun t' ht' => ?_, hacc⟩
      cases ht'
      exact happt
  · refine ⟨?_, ?_, ?_⟩
    · intro c hc
      simp only [apply_filters_optimized] at hc
      split at hc
      · exact (mem_filter_by_state.mp hc).1
      · exact (mem_filter_by_state.mp
          (mem_filter_accepting_patients.mp hc).1).1
    · intro s' hs' c hc
      cases hs'
      simp only [apply_filters_optimized] at hc
      split at hc
      · exact (mem_filter_by_state.mp hc).2
      · exact (mem_filter_by_state.mp
          (mem_filter_accepting_patients.mp hc).1).2
    · intro c hc
      simp only [apply_filters_optimized, Nat.not_lt_zero, if_false] at hc
      obtain ⟨h1, hacc⟩ := mem_filter_accepting_patients.mp hc
      obtain ⟨_, hst⟩ := mem_filter_by_state.mp h1
      refine ⟨fun s' hs' => ?_, fun t ht => by simp at ht, hacc⟩
      cases hs'
      exact hst
  · refine ⟨?_, ?_, ?_⟩
    · intro c hc
      simp only [apply_filters_optimized] at hc
      split at hc
      · exact (mem_filter_by_state.mp hc).1
      · split at hc
        · exact (mem_filter_by_state.mp
            (mem_filter_by_appointment_type.mp hc).1).1
        · exact (mem_filter_by_state.mp (mem_filter_by_appointment_type.mp
            (mem_filter_accepting_patients.mp hc).1).1).1
    · intro s' hs' c hc
      cases hs'
      simp only [apply_filters_optimized] at hc
      split at hc
      · exact (mem_filter_by_state.mp hc).2
      · split at hc
        · exact (mem_filter_by_state.mp
            (mem_filter_by_appointment_type.mp hc).1).2
        · exact (mem_filter_by_state.mp (mem_filter_by_appointment_type.mp
            (mem_filter_accepting_patients.mp hc).1).1).2
    · intro c hc
      simp only [apply_filters_optimized, Nat.not_lt_zero, if_false] at hc
      obtain ⟨h1, hacc⟩ := mem_filter_accepting_patients.mp hc
      obtain ⟨h2, happt⟩ := mem_filter_by_appointment_type.mp h1
      obtain ⟨_, hst⟩ := mem_filter_by_state.mp h2
      refine ⟨fun s' hs' => ?_, fun t' ht' => ?_, hacc⟩
      · cases hs'
        exact hst
      · cases ht'
        exact happt

/-- Counterexample to C2 as stated: a clinician licensed in CA offering only
therapy, a user wanting medication in CA, and `MIN_RESULTS = 2`.  The state
filter leaves one clinician, `1 < 2` fires the short-circuit, and the stage
returns the clinician even though it fails the appointment-type hard
filter. -/
theorem apply_filters_short_circuit_counterexample :
    Clinician.mk "clin_ca_therapy" ["CA"] ["therapy"] true
      ∈ apply_filters_optimized 2
          [Clinician.mk "clin_ca_therapy" ["CA"] ["therapy"] true]
          (Filters.mk (some "CA") (some "medication"))
    ∧ "medication" ∉
        (Clinician.mk "clin_ca_therapy" ["CA"] ["therapy"] true).appointment_types := by
  refine ⟨?_, by decide⟩
  decide

/-- Witness for the amended C2 at a concrete input: with the state preference
CA, the short-circuiting stage still only returns CA-licensed clinicians. -/
theorem apply_filters_subset_and_hard_filters_witness :
    (Filters.mk (some "CA") (some "medication")).state = some "CA"
    ∧ Clinician.mk "clin_ca_therapy" ["CA"] ["therapy"] true
        ∈ apply_filters_optimized 2
            [Clinician.mk "clin_ca_therapy" ["CA"] ["therapy"] true]
            (Filters.mk (some "CA") (some "medication"))
    ∧ "CA" ∈ (Clinician.mk "clin_ca_therapy" ["CA"] ["therapy"] true).license_states :=
  ⟨rfl, by decide,
   (apply_filters_subset_and_hard_filters 2
      [Clinician.mk "clin_ca_therapy" ["CA"] ["therapy"] true]
      (Filters.mk (some "CA") (some "medication"))).2.1 "CA" rfl
      (Clinician.mk "clin_ca_therapy" ["CA"] ["therapy"] true) (by decide)⟩

/-! ### Diversity re-ranking lemmas -/

/-- Inserting an element whose score dominates the whole list places it at
the head. -/
theorem insert_desc_eq_cons {m : MatchResult} {l : List MatchResult}
    (h : ∀ b ∈ l, b.score ≤ m.score) : insert_desc m l = m :: l := by
  cases l with
  | nil => rfl
  | cons b t => exact if_pos (h b (List.mem_cons_self b t))

/-- Members of an insertion come from the inserted element or the list. -/
theorem mem_of_mem_insert_desc {x m : MatchResult} {l : List MatchResult}
    (hx : x ∈ insert_desc m l) : x = m ∨ x ∈ l := by
  induction l with
  | nil => simpa [insert_desc] using hx
  | cons b t ih =>
    simp only [insert_desc] at hx
    split at hx
    · simpa using hx
    · rcases List.mem_cons.mp hx with h | h
      · exact Or.inr (h ▸ List.mem_cons_self b t)
      · rcases ih h with h' | h'
        · exact Or.inl h'
        · exact Or.inr (List.mem_cons_of_mem b h')

/-- Members of the sorted list come from the original list. -/
theorem mem_of_mem_sort_by_score {x : MatchResult} {l : List MatchResult}
    (hx : x ∈ sort_by_score l) : x ∈ l := by
  induction l with
  | nil => simp [sort_by_score] at hx
  | cons m t ih =>
    rcases mem_of_mem_insert_desc hx with h | h
    · exact h ▸ List.mem_cons_self m t
    · exact List.mem_cons_of_mem m (ih h)

/-- Sorting a list already sorted by descending score leaves it unchanged. -/
theorem sort_by_score_of_sorted {l : List MatchResult} (h : SortedDesc l) :
    sort_by_score l = l := by
  induction l with
  | nil => rfl
  | cons m t ih =>
    obtain ⟨hm, ht⟩ := List.pairwise_cons.mp h
    rw [sort_by_score, ih ht]
    exact insert_desc_eq_cons hm

/-- The diversity pass is the identity when every element's index stays
below three. -/
theorem diversity_pass_of_short (calc_dv : MatchResult → List String → ℚ) :
    ∀ (l : List MatchResult) (seen : List String) (i : Nat),
      l.length + i ≤ 3 → diversity_pass calc_dv seen i l = l := by
  intro l
  induction l with
  | nil => intro seen i _; rfl
  | cons m t ih =>
    intro seen i hlen
    simp only [List.length_cons] at hlen
    rw [diversity_pass, if_pos (by omega)]
    rw [ih (update_seen m seen) (i + 1) (by omega)]

/-- Past index three, every element the diversity pass emits has its score
bounded by the score of some original element, provided the original scores
are nonnegative and the diversity factor never exceeds one. -/
theorem diversity_pass_score_bound (calc_dv : MatchResult → List String → ℚ)
    (hdv : ∀ m s, calc_dv m s ≤ 1) :
    ∀ (l : List MatchResult) (seen : List String) (i : Nat),
      (∀ m ∈ l, 0 ≤ m.score) → 3 ≤ i →
      ∀ x ∈ diversity_pass calc_dv seen i l, ∃ m ∈ l, x.score ≤ m.score := by
  intro l
  induction l with
  | nil =>
    intro seen i _ _ x hx
    simp [diversity_pass] at hx
  | cons m t ih =>
    intro seen i hpos hi x hx
    rw [diversity_pass, if_neg (by omega)] at hx
    rcases List.mem_cons.mp hx with h | h
    · refine ⟨m, List.mem_cons_self m t, ?_⟩
      rw [h]
      exact mul_le_of_le_one_right (hpos m (List.mem_cons_self m t))
        (hdv m seen)
    · obtain ⟨m', hm', hle⟩ := ih _ (i + 1)
        (fun y hy => hpos y (List.mem_cons_of_mem m hy)) (by omega) x h
      exact ⟨m', List.mem_cons_of_mem m hm', hle⟩

/-- Claim C3: on a score-sorted result list with nonnegative finalized
scores, and for any diversity factor never exceeding one, the diversity
re-rank leaves the first three entries — identity and relative order —
unchanged, so no later candidate is promoted above the fixed top three. -/
theorem apply_diversity_preserves_top3
    (calc_dv : MatchResult → List String → ℚ) (ms : List MatchResult)
    (hsorted : SortedDesc ms) (hpos : ∀ m ∈ ms, 0 ≤ m.score)
    (hdv : ∀ m s, calc_dv m s ≤ 1) :
    (apply_diversity calc_dv ms).take 3 = ms.take 3 := by
  match ms with
  | [] =>
      rw [apply_diversity, diversity_pass_of_short calc_dv [] [] 0 (by simp),
        sort_by_score_of_sorted hsorted]
  | [a] =>
      rw [apply_diversity, diversity_pass_of_short calc_dv [a] [] 0 (by simp),
        sort_by_score_of_sorted hsorted]
  | [a, b] =>
      rw [apply_diversity,
        diversity_pass_of_short calc_dv [a, b] [] 0 (by simp),
        sort_by_score_of_sorted hsorted]
  | a :: b :: c :: rest =>
      obtain ⟨ha, hsorted1⟩ := List.pairwise_cons.mp hsorted
      obtain ⟨hb, hsorted2⟩ := List.pairwise_cons.mp hsorted1
      obtain ⟨hcrest, _⟩ := List.pairwise_cons.mp hsorted2
      have hpass : diversity_pass calc_dv [] 0 (a :: b :: c :: rest)
          = a :: b :: c :: diversity_pass calc_dv
              (update_seen c (update_seen b (update_seen a []))) 3 rest := by
        rw [diversity_pass, if_pos (by omega), diversity_pass,
          if_pos (by omega), diversity_pass, if_pos (by omega)]
      have htail : ∀ x ∈ diversity_pass calc_dv
          (update_seen c (update_seen b (update_seen a []))) 3 rest,
          x.score ≤ c.score := by
        intro x hx
        obtain ⟨m', hm', hle⟩ := diversity_pass_score_bound calc_dv hdv rest
          _ 3 (fun y hy => hpos y (by simp [hy])) le_rfl x hx
        exact hle.trans (hcrest m' hm')
      have hsortc : insert_desc c (sort_by_score (diversity_pass calc_dv
          (update_seen c (update_seen b (update_seen a []))) 3 rest))
          = c :: sort_by_score (diversity_pass calc_dv
              (update_seen c (update_seen b (update_seen a []))) 3 rest) :=
        insert_desc_eq_cons fun x hx => htail x (mem_of_mem_sort_by_score hx)
      have hsortb : insert_desc b (c :: sort_by_score (diversity_pass calc_dv
          (update_seen c (update_seen b (update_seen a []))) 3 rest))
          = b :: c :: sort_by_score (diversity_pass calc_dv
              (update_seen c (update_seen b (update_seen a []))) 3 rest) := by
        refine insert_desc_eq_cons fun x hx => ?_
        rcases List.mem_cons.mp hx with h | h
        · exact h ▸ hb c (List.mem_cons_self c rest)
        · exact (htail x (mem_of_mem_sort_by_score h)).trans
            (hb c (List.mem_cons_self c rest))
      have hsorta : insert_desc a (b :: c :: sort_by_score (diversity_pass
          calc_dv (update_seen c (update_seen b (update_seen a []))) 3 rest))
          = a :: b :: c :: sort_by_score (diversity_pass calc_dv
              (update_seen c (update_seen b (update_seen a []))) 3 rest) := by
        refine insert_desc_eq_cons fun x hx => ?_
        rcases List.mem_cons.mp hx with h | h
        · exact h ▸ ha b (List.mem_cons_self b (c :: rest))
        · rcases List.mem_cons.mp h with h' | h'
          · exact h' ▸ ha c (by simp)
          · exact (htail x (mem_of_mem_sort_by_score h')).trans (ha c (by simp))
      rw [apply_diversity, hpass, sort_by_score, sort_by_score, sort_by_score,
        hsortc, hsortb, hsorta]
      rfl

/-- Witness for C3 on a concrete sorted four-element list with the constant
one-half diversity factor. -/
theorem apply_diversity_preserves_top3_witness :
    SortedDesc
      [MatchResult.mk "m1" (9/10) "female" "Anxiety",
       MatchResult.mk "m2" (8/10) "male" "PTSD",
       MatchResult.mk "m3" (7/10) "female" "Grief",
       MatchResult.mk "m4" (6/10) "male" "OCD"]
    ∧ (∀ m ∈ [MatchResult.mk "m1" (9/10) "female" "Anxiety",
        MatchResult.mk "m2" (8/10) "male" "PTSD",
        MatchResult.mk "m3" (7/10) "female" "Grief",
        MatchResult.mk "m4" (6/10) "male" "OCD"], 0 ≤ m.score)
    ∧ (∀ (m : MatchResult) (s : List String),
        (fun (_ : MatchResult) (_ : List String) => (1:ℚ)/2) m s ≤ 1)
    ∧ (apply_diversity (fun _ _ => (1:ℚ)/2)
        [MatchResult.mk "m1" (9/10) "female" "Anxiety",
         MatchResult.mk "m2" (8/10) "male" "PTSD",
         MatchResult.mk "m3" (7/10) "female" "Grief",
         MatchResult.mk "m4" (6/10) "male" "OCD"]).take 3
      = [MatchResult.mk "m1" (9/10) "female" "Anxiety",
         MatchResult.mk "m2" (8/10) "male" "PTSD",
         MatchResult.mk "m3" (7/10) "female" "Grief",
         MatchResult.mk "m4" (6/10) "male" "OCD"].take 3 :=
  ⟨by norm_num [SortedDesc, List.pairwise_cons],
   by intro m hm; fin_cases hm <;> norm_num,
   fun _ _ => by norm_num,
   apply_diversity_preserves_top3 (fun _ _ => (1:ℚ)/2) _
     (by norm_num [SortedDesc, List.pairwise_cons])
     (by intro m hm; fin_cases hm <;> norm_num)
     (fun _ _ => by norm_num)⟩

end LunaJoy
